import Mathlib

/-!
Shallow embedding of the reconciliation and batching engine of the
`seller-apis` repository (`src/seller.py` and `src/market.py`), together
with theorems settling the specification claims about it.

Inventory rows come from the spreadsheet snapshot; every use of a row field
in the source first coerces it with `str(...)`, so the embedding carries the
three fields already in string form (the spec's data model also declares
them strings).
-/

/-- One inventory row (`watch` in the source): `code` is `str(watch.get("Код"))`,
`quantity` is `str(watch.get("Количество"))`, `price` is `watch.get("Цена")`. -/
structure Watch where
  code : String
  quantity : String
  price : String
deriving DecidableEq

/-- Model of Python's `str.strip()` over the character list. -/
def pyStrip (l : List Char) : List Char :=
  ((l.dropWhile Char.isWhitespace).reverse.dropWhile Char.isWhitespace).reverse

/-- Python `int(s)` on a string: strip surrounding whitespace, allow one
optional sign, then require a nonempty run of ASCII decimal digits;
anything else raises `ValueError`, modelled as `none`.  (Underscore digit
grouping and non-ASCII digits, which CPython also accepts, do not occur in
this data and are not modelled.) -/
def parsePyInt (s : String) : Option Int :=
  let t := pyStrip s.data
  let signDigits : Int × List Char :=
    match t with
    | '-' :: rest => (-1, rest)
    | '+' :: rest => (1, rest)
    | _ => (1, t)
  if signDigits.2 ≠ [] ∧ signDigits.2.all Char.isDigit then
    some (signDigits.1 *
      (signDigits.2.foldl (fun a c => 10 * a + (c.toNat - 48)) 0 : Nat))
  else none

/-- `price_conversion` from `src/seller.py`:
`re.sub("[^0-9]", "", price.split(".")[0])` — take the text before the first
`.`, keep only ASCII digits, return the result *as a string*. -/
def price_conversion (price : String) : String :=
  ⟨(price.data.takeWhile (fun c => c != '.')).filter Char.isDigit⟩

/-- The quantity bucketing shared verbatim by both `create_stocks` functions:
`">10"` ↦ 100, `"1"` ↦ 0, otherwise `int(quantity)` (which may raise). -/
def bucketQuantity (count : String) : Option Int :=
  if count = ">10" then some 100
  else if count = "1" then some 0
  else parsePyInt count

/-- The matching loop shared verbatim by both `create_stocks` functions,
parameterised by the record constructor `mk` (the two marketplaces build
different dictionaries from the same `(code, stock)` data).  Walks the
snapshot in order; a row whose code is in the current working offer-id list
emits `mk code stock` and removes that code's first occurrence
(`offer_ids.remove`, = `List.erase`).  Returns the emitted records together
with the final state of the offer-id list (the source mutates the caller's
list in place; the second component is that post-call state).  `none` models
the `ValueError` raised by `int()` on an unparseable quantity. -/
def stockLoop (mk : String → Int → ε) : List Watch → List String → Option (List ε × List String)
  | [], ids => some ([], ids)
  | w :: ws, ids =>
    if w.code ∈ ids then
      match bucketQuantity w.quantity with
      | none => none
      | some v =>
        (stockLoop mk ws (ids.erase w.code)).map (fun r => (mk w.code v :: r.1, r.2))
    else stockLoop mk ws ids

namespace Seller

/-- One element of the list built by `create_stocks` in `src/seller.py`:
`{"offer_id": ..., "stock": ...}`. -/
structure Stock where
  offer_id : String
  stock : Int
deriving DecidableEq

/-- One element of the list built by `create_prices` in `src/seller.py`.
`price` is the string returned by `price_conversion`. -/
structure Price where
  auto_action_enabled : String
  currency_code : String
  offer_id : String
  old_price : String
  price : String
deriving DecidableEq

/-- `create_stocks` from `src/seller.py`.  First component of the result:
the returned `stocks` list (matched records first, then a zero-stock entry
for every offer id left in the working list).  Second component: the final
state of the caller's `offer_ids` list, which the source mutates in place. -/
def create_stocks (watch_remnants : List Watch) (offer_ids : List String) :
    Option (List Stock × List String) :=
  (stockLoop (fun c s => ⟨c, s⟩) watch_remnants offer_ids).map
    (fun r => (r.1 ++ r.2.map (fun i => ⟨i, 0⟩), r.2))

/-- `create_prices` from `src/seller.py`: one entry per snapshot row whose
code is in `offer_ids`; rows with absent codes are skipped; `offer_ids` is
not modified.  Total: `price_conversion` never raises. -/
def create_prices : List Watch → List String → List Price
  | [], _ => []
  | w :: ws, offer_ids =>
    if w.code ∈ offer_ids then
      ⟨"UNKNOWN", "RUB", w.code, "0", price_conversion w.price⟩ :: create_prices ws offer_ids
    else create_prices ws offer_ids

end Seller

/-- `divide` from `src/seller.py` (`for i in range(0, len(lst), n): yield lst[i:i+n]`),
with the generator forced to a list.  Structural on an explicit fuel equal to
`lst.length`, which for `n ≥ 1` bounds the chunk count. -/
def divideAux (n : Nat) : Nat → List α → List (List α)
  | 0, _ => []
  | _ + 1, [] => []
  | fuel + 1, x :: xs => (x :: xs).take n :: divideAux n fuel ((x :: xs).drop n)

/-- `list(divide(lst, n))`.  The source's `range(0, len(lst), n)` raises
`ValueError` for `n = 0`; that case lies outside every claim and is mapped
to `[]`. -/
def divide (lst : List α) (n : Nat) : List (List α) :=
  if n = 0 then [] else divideAux n lst.length lst

namespace Market

/-- One element of the `items` list in a Yandex-Market stock record:
`{"count": ..., "type": "FIT", "updatedAt": date}`. -/
structure StockItem where
  count : Int
  type : String
  updatedAt : String
deriving DecidableEq

/-- One element of the list built by `create_stocks` in `src/market.py`:
`{"sku": ..., "warehouseId": ..., "items": [...]}`. -/
structure Stock where
  sku : String
  warehouseId : String
  items : List StockItem
deriving DecidableEq

/-- One element of the list built by `create_prices` in `src/market.py`:
`{"id": ..., "price": {"value": int(price_conversion(...)), "currencyId": "RUR"}}`. -/
structure Price where
  id : String
  value : Int
  currencyId : String
deriving DecidableEq

/-- The record constructor used by `create_stocks` in `src/market.py` for a
given warehouse and timestamp. -/
def mkStock (warehouse_id date : String) (code : String) (stock : Int) : Stock :=
  ⟨code, warehouse_id, [⟨stock, "FIT", date⟩]⟩

/-- `create_stocks` from `src/market.py`.  `date` is the string
`datetime.datetime.utcnow().replace(microsecond=0).isoformat() + "Z"`
computed once at the start of the call — a wall-clock reading, passed here
explicitly.  Components of the result as in `Seller.create_stocks`. -/
def create_stocks (watch_remnants : List Watch) (offer_ids : List String)
    (warehouse_id date : String) : Option (List Stock × List String) :=
  (stockLoop (mkStock warehouse_id date) watch_remnants offer_ids).map
    (fun r => (r.1 ++ r.2.map (fun i => mkStock warehouse_id date i 0), r.2))

/-- `create_prices` from `src/market.py`: like the seller version, but the
price value is `int(price_conversion(...))`, which raises `ValueError`
(modelled `none`) when the conversion yields a digit-free string. -/
def create_prices : List Watch → List String → Option (List Price)
  | [], _ => some []
  | w :: ws, offer_ids =>
    if w.code ∈ offer_ids then
      match parsePyInt (price_conversion w.price) with
      | none => none
      | some v => (create_prices ws offer_ids).map (fun ps => ⟨w.code, v, "RUR"⟩ :: ps)
    else create_prices ws offer_ids

end Market

/-! ### Helper lemmas about the shared matching loop -/

theorem stockLoop_nil {ε : Type} (mk : String → Int → ε) (ids : List String) :
    stockLoop mk [] ids = some ([], ids) := rfl

theorem stockLoop_final_sublist {ε : Type} (mk : String → Int → ε) :
    ∀ (ws : List Watch) (ids : List String) (st : List ε) (f : List String),
      stockLoop mk ws ids = some (st, f) → f.Sublist ids := by
  intro ws
  induction ws with
  | nil =>
    intro ids st f h
    rw [stockLoop_nil] at h
    cases h
    exact List.Sublist.refl _
  | cons w ws ih =>
    intro ids st f h
    by_cases hc : w.code ∈ ids
    · rw [stockLoop, if_pos hc] at h
      cases hq : bucketQuantity w.quantity with
      | none => rw [hq] at h; exact absurd h (by simp)
      | some v =>
        rw [hq] at h
        cases hr : stockLoop mk ws (ids.erase w.code) with
        | none => rw [hr] at h; exact absurd h (by simp)
        | some r =>
          rw [hr] at h
          simp only [Option.map_some', Option.some.injEq, Prod.mk.injEq] at h
          obtain ⟨-, h2⟩ := h
          have hs := ih (ids.erase w.code) r.1 r.2 (by rw [hr])
          exact h2 ▸ hs.trans (List.erase_sublist _ _)
    · rw [stockLoop, if_neg hc] at h
      exact ih ids st f h

theorem stockLoop_unmatched_mem {ε : Type} (mk : String → Int → ε) :
    ∀ (ws : List Watch) (ids : List String) (st : List ε) (f : List String),
      stockLoop mk ws ids = some (st, f) →
      ∀ i ∈ ids, (∀ w ∈ ws, w.code ≠ i) → i ∈ f := by
  intro ws
  induction ws with
  | nil =>
    intro ids st f h i hi _
    rw [stockLoop_nil] at h
    cases h
    exact hi
  | cons w ws ih =>
    intro ids st f h i hi hnc
    by_cases hc : w.code ∈ ids
    · rw [stockLoop, if_pos hc] at h
      cases hq : bucketQuantity w.quantity with
      | none => rw [hq] at h; exact absurd h (by simp)
      | some v =>
        rw [hq] at h
        cases hr : stockLoop mk ws (ids.erase w.code) with
        | none => rw [hr] at h; exact absurd h (by simp)
        | some r =>
          rw [hr] at h
          simp only [Option.map_some', Option.some.injEq, Prod.mk.injEq] at h
          obtain ⟨-, h2⟩ := h
          have hne : w.code ≠ i := hnc w (List.mem_cons_self _ _)
          have hi' : i ∈ ids.erase w.code :=
            (List.mem_erase_of_ne (fun he => hne he.symm)).mpr hi
          exact h2 ▸ ih (ids.erase w.code) r.1 r.2 (by rw [hr]) i hi'
            (fun v hv => hnc v (List.mem_cons_of_mem _ hv))
    · rw [stockLoop, if_neg hc] at h
      exact ih ids st f h i hi (fun v hv => hnc v (List.mem_cons_of_mem _ hv))

theorem stockLoop_entries_mem {ε : Type} (mk : String → Int → ε) (oid : ε → String)
    (hoid : ∀ c v, oid (mk c v) = c) :
    ∀ (ws : List Watch) (ids : List String) (st : List ε) (f : List String),
      stockLoop mk ws ids = some (st, f) → ∀ e ∈ st, oid e ∈ ids := by
  intro ws
  induction ws with
  | nil =>
    intro ids st f h e he
    rw [stockLoop_nil] at h
    cases h
    exact absurd he (List.not_mem_nil e)
  | cons w ws ih =>
    intro ids st f h e he
    by_cases hc : w.code ∈ ids
    · rw [stockLoop, if_pos hc] at h
      cases hq : bucketQuantity w.quantity with
      | none => rw [hq] at h; exact absurd h (by simp)
      | some v =>
        rw [hq] at h
        cases hr : stockLoop mk ws (ids.erase w.code) with
        | none => rw [hr] at h; exact absurd h (by simp)
        | some r =>
          rw [hr] at h
          simp only [Option.map_some', Option.some.injEq, Prod.mk.injEq] at h
          obtain ⟨h1, -⟩ := h
          rw [← h1] at he
          rcases List.mem_cons.mp he with he | he
          · rw [he, hoid]; exact hc
          · exact (List.erase_sublist _ _).mem
              (ih (ids.erase w.code) r.1 r.2 (by rw [hr]) e he)
    · rw [stockLoop, if_neg hc] at h
      exact ih ids st f h e he

theorem stockLoop_nodup {ε : Type} (mk : String → Int → ε) (oid : ε → String)
    (hoid : ∀ c v, oid (mk c v) = c) :
    ∀ (ws : List Watch) (ids : List String) (st : List ε) (f : List String),
      stockLoop mk ws ids = some (st, f) → ids.Nodup →
      (st.map oid ++ f).Nodup := by
  intro ws
  induction ws with
  | nil =>
    intro ids st f h hn
    rw [stockLoop_nil] at h
    cases h
    simpa using hn
  | cons w ws ih =>
    intro ids st f h hn
    by_cases hc : w.code ∈ ids
    · rw [stockLoop, if_pos hc] at h
      cases hq : bucketQuantity w.quantity with
      | none => rw [hq] at h; exact absurd h (by simp)
      | some v =>
        rw [hq] at h
        cases hr : stockLoop mk ws (ids.erase w.code) with
        | none => rw [hr] at h; exact absurd h (by simp)
        | some r =>
          rw [hr] at h
          simp only [Option.map_some', Option.some.injEq, Prod.mk.injEq] at h
          obtain ⟨h1, h2⟩ := h
          have hrs := stockLoop_final_sublist mk ws (ids.erase w.code) r.1 r.2 (by rw [hr])
          have hih := ih (ids.erase w.code) r.1 r.2 (by rw [hr]) (hn.erase _)
          rw [← h1, ← h2]
          simp only [List.map_cons, List.cons_append, List.nodup_cons, hoid]
          refine ⟨fun hmem => ?_, hih⟩
          have hni : w.code ∉ ids.erase w.code := hn.not_mem_erase
          rcases List.mem_append.mp hmem with hm | hm
          · rcases List.mem_map.mp hm with ⟨e, he, hee⟩
            exact hni (hee ▸ stockLoop_entries_mem mk oid hoid ws (ids.erase w.code)
              r.1 r.2 (by rw [hr]) e he)
          · exact hni (hrs.mem hm)
    · rw [stockLoop, if_neg hc] at h
      exact ih ids st f h hn

theorem stockLoop_codes_sublist {ε : Type} (mk : String → Int → ε) (oid : ε → String)
    (hoid : ∀ c v, oid (mk c v) = c) :
    ∀ (ws : List Watch) (ids : List String) (st : List ε) (f : List String),
      stockLoop mk ws ids = some (st, f) →
      (st.map oid).Sublist (ws.map Watch.code) := by
  intro ws
  induction ws with
  | nil =>
    intro ids st f h
    rw [stockLoop_nil] at h
    cases h
    simp
  | cons w ws ih =>
    intro ids st f h
    by_cases hc : w.code ∈ ids
    · rw [stockLoop, if_pos hc] at h
      cases hq : bucketQuantity w.quantity with
      | none => rw [hq] at h; exact absurd h (by simp)
      | some v =>
        rw [hq] at h
        cases hr : stockLoop mk ws (ids.erase w.code) with
        | none => rw [hr] at h; exact absurd h (by simp)
        | some r =>
          rw [hr] at h
          simp only [Option.map_some', Option.some.injEq, Prod.mk.injEq] at h
          obtain ⟨h1, -⟩ := h
          rw [← h1]
          simp only [List.map_cons, hoid]
          exact (ih (ids.erase w.code) r.1 r.2 (by rw [hr])).cons₂ _
    · rw [stockLoop, if_neg hc] at h
      exact (ih ids st f h).cons _

theorem stockLoop_append {ε : Type} (mk : String → Int → ε) :
    ∀ (a b : List Watch) (ids : List String),
      stockLoop mk (a ++ b) ids =
        (stockLoop mk a ids).bind
          (fun r => (stockLoop mk b r.2).map (fun q => (r.1 ++ q.1, q.2))) := by
  intro a
  induction a with
  | nil =>
    intro b ids
    rw [List.nil_append, stockLoop_nil, Option.some_bind]
    cases stockLoop mk b ids with
    | none => rfl
    | some q => simp
  | cons w ws ih =>
    intro b ids
    rw [List.cons_append, stockLoop, stockLoop]
    by_cases hc : w.code ∈ ids
    · rw [if_pos hc, if_pos hc]
      cases bucketQuantity w.quantity with
      | none => rfl
      | some v =>
        show (stockLoop mk (ws ++ b) (ids.erase w.code)).map
            (fun r => (mk w.code v :: r.1, r.2)) =
          ((stockLoop mk ws (ids.erase w.code)).map
            (fun r => (mk w.code v :: r.1, r.2))).bind
              (fun r => (stockLoop mk b r.2).map (fun q => (r.1 ++ q.1, q.2)))
        rw [ih b (ids.erase w.code)]
        cases stockLoop mk ws (ids.erase w.code) with
        | none => rfl
        | some p =>
          simp only [Option.map_some', Option.some_bind]
          cases stockLoop mk b p.2 with
          | none => rfl
          | some q => rfl
    · rw [if_neg hc, if_neg hc]
      exact ih b ids

theorem stockLoop_map {ε ε' : Type} (mk : String → Int → ε) (g : ε → ε') :
    ∀ (ws : List Watch) (ids : List String),
      stockLoop (fun c v => g (mk c v)) ws ids =
        (stockLoop mk ws ids).map (fun r => (r.1.map g, r.2)) := by
  intro ws
  induction ws with
  | nil => intro ids; rfl
  | cons w ws ih =>
    intro ids
    rw [stockLoop, stockLoop]
    by_cases hc : w.code ∈ ids
    · rw [if_pos hc, if_pos hc]
      cases bucketQuantity w.quantity with
      | none => rfl
      | some v =>
        rw [ih (ids.erase w.code)]
        cases stockLoop mk ws (ids.erase w.code) <;> rfl
    · rw [if_neg hc, if_neg hc]
      exact ih ids

/-! ### Helper lemmas about the batcher -/

theorem divideAux_nil {α : Type} (n : Nat) : ∀ fuel, divideAux n fuel ([] : List α) = [] := by
  intro fuel
  cases fuel with
  | zero => rfl
  | succ k => rfl

theorem divideAux_flatten {α : Type} (n : Nat) (hn : 0 < n) :
    ∀ (fuel : Nat) (lst : List α), lst.length ≤ fuel →
      (divideAux n fuel lst).flatten = lst := by
  intro fuel
  induction fuel with
  | zero =>
    intro lst hl
    rw [List.eq_nil_of_length_eq_zero (Nat.le_zero.mp hl)]
    rfl
  | succ k ih =>
    intro lst hl
    cases lst with
    | nil => rfl
    | cons x xs =>
      rw [divideAux, List.flatten_cons,
        ih ((x :: xs).drop n)
          (by simp only [List.length_drop, List.length_cons] at hl ⊢; omega),
        List.take_append_drop]

theorem divideAux_length {α : Type} (n : Nat) (hn : 0 < n) :
    ∀ (fuel : Nat) (lst : List α), lst.length ≤ fuel →
      (divideAux n fuel lst).length = (lst.length + n - 1) / n := by
  intro fuel
  induction fuel with
  | zero =>
    intro lst hl
    rw [List.eq_nil_of_length_eq_zero (Nat.le_zero.mp hl)]
    simp [divideAux, Nat.div_eq_of_lt (by omega : n - 1 < n)]
  | succ k ih =>
    intro lst hl
    cases lst with
    | nil => simp [divideAux_nil, Nat.div_eq_of_lt (by omega : n - 1 < n)]
    | cons x xs =>
      rw [divideAux, List.length_cons,
        ih ((x :: xs).drop n)
          (by simp only [List.length_drop, List.length_cons] at hl ⊢; omega),
        List.length_drop]
      rcases le_or_lt n ((x :: xs).length) with hle | hlt
      · have he : (x :: xs).length + n - 1 = ((x :: xs).length - n + n - 1) + n := by omega
        rw [he, Nat.add_div_right _ hn]
      · have h0 : (x :: xs).length - n = 0 := by omega
        rw [h0, Nat.div_eq_of_lt (by omega : 0 + n - 1 < n)]

        have h1 : 1 ≤ (x :: xs).length := by simp
        exact (Nat.div_eq_of_lt_le (by omega) (by omega)).symm

theorem divideAux_dropLast {α : Type} (n : Nat) (hn : 0 < n) :
    ∀ (fuel : Nat) (lst : List α), lst.length ≤ fuel →
      ∀ c ∈ (divideAux n fuel lst).dropLast, c.length = n := by
  intro fuel
  induction fuel with
  | zero =>
    intro lst hl c hc
    rw [List.eq_nil_of_length_eq_zero (Nat.le_zero.mp hl)] at hc
    exact absurd hc (by simp [divideAux])
  | succ k ih =>
    intro lst hl c hc
    cases lst with
    | nil => exact absurd hc (by simp [divideAux_nil])
    | cons x xs =>
      rw [divideAux] at hc
      cases hr : divideAux n k ((x :: xs).drop n) with
      | nil => rw [hr] at hc; exact absurd hc (by simp)
      | cons r rs =>
        rw [hr, List.dropLast_cons₂] at hc
        rcases List.mem_cons.mp hc with hc | hc
        · have hne : (x :: xs).drop n ≠ [] := by
            intro hdrop
            rw [hdrop, divideAux_nil] at hr
            exact List.cons_ne_nil r rs hr.symm
          have hlen : n < (x :: xs).length := by
            have := List.length_pos.mpr hne
            rw [List.length_drop] at this
            omega
          rw [hc, List.length_take]
          omega
        · exact ih ((x :: xs).drop n)
            (by simp only [List.length_drop, List.length_cons] at hl ⊢; omega) c (hr ▸ hc)

/-! ### Helper lemmas about the price reconciliation functions -/

theorem seller_prices_mem :
    ∀ (rem : List Watch) (ids : List String) (p : Seller.Price),
      p ∈ Seller.create_prices rem ids →
      p.offer_id ∈ ids ∧ ∃ w ∈ rem, w.code = p.offer_id := by
  intro rem
  induction rem with
  | nil => intro ids p hp; exact absurd hp (List.not_mem_nil p)
  | cons w ws ih =>
    intro ids p hp
    rw [Seller.create_prices] at hp
    by_cases hc : w.code ∈ ids
    · rw [if_pos hc] at hp
      rcases List.mem_cons.mp hp with hp | hp
      · subst hp
        exact ⟨hc, w, List.mem_cons_self _ _, rfl⟩
      · obtain ⟨h1, w', hw', he⟩ := ih ids p hp
        exact ⟨h1, w', List.mem_cons_of_mem _ hw', he⟩
    · rw [if_neg hc] at hp
      obtain ⟨h1, w', hw', he⟩ := ih ids p hp
      exact ⟨h1, w', List.mem_cons_of_mem _ hw', he⟩

theorem seller_prices_codes_sublist :
    ∀ (rem : List Watch) (ids : List String),
      ((Seller.create_prices rem ids).map Seller.Price.offer_id).Sublist
        (rem.map Watch.code) := by
  intro rem
  induction rem with
  | nil => intro ids; exact List.Sublist.refl _
  | cons w ws ih =>
    intro ids
    rw [Seller.create_prices]
    by_cases hc : w.code ∈ ids
    · rw [if_pos hc, List.map_cons, List.map_cons]
      exact (ih ids).cons₂ _
    · rw [if_neg hc, List.map_cons]
      exact (ih ids).cons _

theorem seller_prices_skip :
    ∀ (ws1 : List Watch) (w : Watch) (ws2 : List Watch) (ids : List String),
      w.code ∉ ids →
      Seller.create_prices (ws1 ++ w :: ws2) ids = Seller.create_prices (ws1 ++ ws2) ids := by
  intro ws1
  induction ws1 with
  | nil =>
    intro w ws2 ids hnc
    rw [List.nil_append, List.nil_append, Seller.create_prices, if_neg hnc]
  | cons a ws1 ih =>
    intro w ws2 ids hnc
    rw [List.cons_append, List.cons_append, Seller.create_prices, Seller.create_prices,
      ih w ws2 ids hnc]

theorem market_prices_mem :
    ∀ (rem : List Watch) (ids : List String) (ps : List Market.Price),
      Market.create_prices rem ids = some ps →
      ∀ p ∈ ps, p.id ∈ ids ∧ ∃ w ∈ rem, w.code = p.id := by
  intro rem
  induction rem with
  | nil =>
    intro ids ps h p hp
    rw [Market.create_prices] at h
    cases h
    exact absurd hp (List.not_mem_nil p)
  | cons w ws ih =>
    intro ids ps h p hp
    rw [Market.create_prices] at h
    by_cases hc : w.code ∈ ids
    · rw [if_pos hc] at h
      cases hv : parsePyInt (price_conversion w.price) with
      | none => rw [hv] at h; exact absurd h (by simp)
      | some v =>
        rw [hv] at h
        cases hq : Market.create_prices ws ids with
        | none => rw [hq] at h; exact absurd h (by simp)
        | some qs =>
          rw [hq] at h
          simp only [Option.map_some', Option.some.injEq] at h
          rw [← h] at hp
          rcases List.mem_cons.mp hp with hp | hp
          · subst hp
            exact ⟨hc, w, List.mem_cons_self _ _, rfl⟩
          · obtain ⟨h1, w', hw', he⟩ := ih ids qs hq p hp
            exact ⟨h1, w', List.mem_cons_of_mem _ hw', he⟩
    · rw [if_neg hc] at h
      obtain ⟨h1, w', hw', he⟩ := ih ids ps h p hp
      exact ⟨h1, w', List.mem_cons_of_mem _ hw', he⟩

theorem market_prices_skip :
    ∀ (ws1 : List Watch) (w : Watch) (ws2 : List Watch) (ids : List String),
      w.code ∉ ids →
      Market.create_prices (ws1 ++ w :: ws2) ids = Market.create_prices (ws1 ++ ws2) ids := by
  intro ws1
  induction ws1 with
  | nil =>
    intro w ws2 ids hnc
    rw [List.nil_append, List.nil_append, Market.create_prices, if_neg hnc]
  | cons a ws1 ih =>
    intro w ws2 ids hnc
    rw [List.cons_append, List.cons_append, Market.create_prices, Market.create_prices,
      ih w ws2 ids hnc]

theorem market_prices_codes_sublist :
    ∀ (rem : List Watch) (ids : List String) (ps : List Market.Price),
      Market.create_prices rem ids = some ps →
      (ps.map Market.Price.id).Sublist (rem.map Watch.code) := by
  intro rem
  induction rem with
  | nil =>
    intro ids ps h
    rw [Market.create_prices] at h
    cases h
    exact List.Sublist.refl _
  | cons w ws ih =>
    intro ids ps h
    rw [Market.create_prices] at h
    by_cases hc : w.code ∈ ids
    · rw [if_pos hc] at h
      cases hv : parsePyInt (price_conversion w.price) with
      | none => rw [hv] at h; exact absurd h (by simp)
      | some v =>
        rw [hv] at h
        cases hq : Market.create_prices ws ids with
        | none => rw [hq] at h; exact absurd h (by simp)
        | some qs =>
          rw [hq] at h
          simp only [Option.map_some', Option.some.injEq] at h
          rw [← h, List.map_cons, List.map_cons]
          exact (ih ids qs hq).cons₂ _
    · rw [if_neg hc] at h
      rw [List.map_cons]
      exact (ih ids ps h).cons _

/-! ### Claim theorems -/

/-- Claim C4 (code bug): the spec says `price_conversion` returns 0 for an
empty string or digit-free input (and the function's own docstring promises
the string `"0"` there), but the source returns the *empty string* for such
inputs; downstream, `src/market.py` applies `int(...)` to it, which then
raises `ValueError`.  The truncation examples of the claim do hold. -/
theorem price_conversion_digitfree_empty :
    price_conversion "" = "" ∧
    price_conversion "" ≠ "0" ∧
    price_conversion "abc" = "" ∧
    price_conversion "abc" ≠ "0" ∧
    parsePyInt (price_conversion "abc") = none ∧
    price_conversion "5'990.00 руб." = "5990" ∧
    price_conversion "12.99" = "12" := by
  refine ⟨rfl, by decide, rfl, by decide, rfl, rfl, rfl⟩

/-- Claim C5: `divide` chunks concatenate back to the input, the chunk count
is `⌈len/n⌉` (written `(len + n - 1) / n`), every chunk except possibly the
last has exactly `n` elements, and `divide [1,2,3,4,5] 2 = [[1,2],[3,4],[5]]`. -/
theorem divide_spec {α : Type} (lst : List α) (n : Nat) (hn : 0 < n) :
    (divide lst n).flatten = lst ∧
    (divide lst n).length = (lst.length + n - 1) / n ∧
    (∀ c ∈ (divide lst n).dropLast, c.length = n) ∧
    divide [1, 2, 3, 4, 5] 2 = [[1, 2], [3, 4], [5]] := by
  refine ⟨?_, ?_, ?_, by decide⟩
  · rw [divide, if_neg (by omega : ¬ n = 0)]
    exact divideAux_flatten n hn lst.length lst le_rfl
  · rw [divide, if_neg (by omega : ¬ n = 0)]
    exact divideAux_length n hn lst.length lst le_rfl
  · rw [divide, if_neg (by omega : ¬ n = 0)]
    exact divideAux_dropLast n hn lst.length lst le_rfl

/-- Witness for C5 at `lst = [1,2,3,4,5]`, `n = 2`. -/
theorem divide_spec_witness :
    0 < 2 ∧
    ((divide [1, 2, 3, 4, 5] 2).flatten = [1, 2, 3, 4, 5] ∧
      (divide [1, 2, 3, 4, 5] 2).length = ([1, 2, 3, 4, 5].length + 2 - 1) / 2 ∧
      (∀ c ∈ (divide [1, 2, 3, 4, 5] 2).dropLast, c.length = 2) ∧
      divide [1, 2, 3, 4, 5] 2 = [[1, 2], [3, 4], [5]]) :=
  ⟨by decide, divide_spec [1, 2, 3, 4, 5] 2 (by decide)⟩

/-- Claim C3: quantity bucketing — a matched record whose quantity token is
the literal `">10"` yields stock 100, the literal `"1"` yields 0, and any
other token parseable as an integer yields the parsed value, identically in
both marketplaces (`Seller.create_stocks` and `Market.create_stocks`). -/
theorem quantity_bucketing :
    (∀ (w : Watch) (ids : List String) (v : Int), w.code ∈ ids →
      bucketQuantity w.quantity = some v →
      Seller.create_stocks [w] ids =
        some (⟨w.code, v⟩ :: (ids.erase w.code).map (fun i => ⟨i, 0⟩), ids.erase w.code)) ∧
    bucketQuantity ">10" = some 100 ∧
    bucketQuantity "1" = some 0 ∧
    (∀ (s : String) (k : Int), s ≠ ">10" → s ≠ "1" → parsePyInt s = some k →
      bucketQuantity s = some k) ∧
    Seller.create_stocks [⟨"A", ">10", ""⟩, ⟨"B", "1", ""⟩, ⟨"C", "7", ""⟩] ["A", "B", "C"] =
      some ([⟨"A", 100⟩, ⟨"B", 0⟩, ⟨"C", 7⟩], []) ∧
    Market.create_stocks [⟨"A", ">10", ""⟩, ⟨"B", "1", ""⟩, ⟨"C", "7", ""⟩] ["A", "B", "C"]
        "WH" "D" =
      some ([Market.mkStock "WH" "D" "A" 100, Market.mkStock "WH" "D" "B" 0,
             Market.mkStock "WH" "D" "C" 7], []) := by
  refine ⟨?_, by decide, by decide, ?_, by decide, by decide⟩
  · intro w ids v hmem hb
    rw [Seller.create_stocks, stockLoop, if_pos hmem, hb]
    rfl
  · intro s k h10 h1 hp
    rw [bucketQuantity, if_neg h10, if_neg h1]
    exact hp

/-- Witness for C3 at a record with code `"A"`, quantity `"7"`, catalog `["A"]`. -/
theorem quantity_bucketing_witness :
    (⟨"A", "7", ""⟩ : Watch).code ∈ ["A"] ∧
    bucketQuantity (⟨"A", "7", ""⟩ : Watch).quantity = some 7 ∧
    Seller.create_stocks [⟨"A", "7", ""⟩] ["A"] =
      some (⟨"A", 7⟩ :: (["A"].erase "A").map (fun i => ⟨i, 0⟩), ["A"].erase "A") :=
  ⟨by decide, by decide,
    quantity_bucketing.1 ⟨"A", "7", ""⟩ ["A"] 7 (by decide) (by decide)⟩

/-- Claim C1: every catalog offer id not matched by any inventory record's
code appears in the stock output with an explicit quantity of 0, in both
marketplaces; for inventory codes A,B and catalog A,B,C the output is
exactly the three entries A, B (bucketed) and C (zero). -/
theorem stocks_zero_for_unmatched (rem : List Watch) (ids : List String) :
    (∀ st f, Seller.create_stocks rem ids = some (st, f) →
      ∀ i ∈ ids, (∀ w ∈ rem, w.code ≠ i) → (⟨i, 0⟩ : Seller.Stock) ∈ st) ∧
    (∀ st f wh d, Market.create_stocks rem ids wh d = some (st, f) →
      ∀ i ∈ ids, (∀ w ∈ rem, w.code ≠ i) → Market.mkStock wh d i 0 ∈ st) ∧
    Seller.create_stocks [⟨"A", "5", ""⟩, ⟨"B", ">10", ""⟩] ["A", "B", "C"] =
      some ([⟨"A", 5⟩, ⟨"B", 100⟩, ⟨"C", 0⟩], ["C"]) := by
  refine ⟨?_, ?_, by decide⟩
  · intro st f h i hi hnm
    rw [Seller.create_stocks] at h
    cases hr : stockLoop (fun c s => (⟨c, s⟩ : Seller.Stock)) rem ids with
    | none => rw [hr] at h; exact absurd h (by simp)
    | some r =>
      rw [hr] at h
      simp only [Option.map_some', Option.some.injEq, Prod.mk.injEq] at h
      obtain ⟨h1, -⟩ := h
      have hm : i ∈ r.2 := stockLoop_unmatched_mem _ rem ids r.1 r.2 (by rw [hr]) i hi hnm
      rw [← h1]
      exact List.mem_append_right _ (List.mem_map_of_mem _ hm)
  · intro st f wh d h i hi hnm
    rw [Market.create_stocks] at h
    cases hr : stockLoop (Market.mkStock wh d) rem ids with
    | none => rw [hr] at h; exact absurd h (by simp)
    | some r =>
      rw [hr] at h
      simp only [Option.map_some', Option.some.injEq, Prod.mk.injEq] at h
      obtain ⟨h1, -⟩ := h
      have hm : i ∈ r.2 := stockLoop_unmatched_mem _ rem ids r.1 r.2 (by rw [hr]) i hi hnm
      rw [← h1]
      exact List.mem_append_right _ (List.mem_map_of_mem _ hm)

/-- Witness for C1: catalog id "C" is unmatched in the A,B snapshot and
receives the explicit zero entry. -/
theorem stocks_zero_for_unmatched_witness :
    (⟨"C", 0⟩ : Seller.Stock) ∈ [⟨"A", 5⟩, ⟨"B", 100⟩, (⟨"C", 0⟩ : Seller.Stock)] :=
  (stocks_zero_for_unmatched [⟨"A", "5", ""⟩, ⟨"B", ">10", ""⟩] ["A", "B", "C"]).1
    [⟨"A", 5⟩, ⟨"B", 100⟩, ⟨"C", 0⟩] ["C"] (by decide) "C" (by decide) (by decide)

/-- Claim C2 counterexample: with two inventory records sharing code "A" and
catalog `["A"]`, `create_prices` emits the offer id "A" twice — the claimed
no-duplicates property fails for the price output. -/
theorem prices_duplicate_offer_id :
    ¬ ((Seller.create_prices [⟨"A", "1", "10"⟩, ⟨"A", "1", "20"⟩] ["A"]).map
        Seller.Price.offer_id).Nodup := by decide

/-- Claim C2 amended: all emitted offer ids lie in the supplied offer-id
list; the stock outputs are duplicate-free whenever the catalog list is
(in both marketplaces, for every snapshot, duplicated codes included); the
price output is duplicate-free only under the extra assumption that the
snapshot's codes are themselves duplicate-free. -/
theorem offer_ids_subset_nodup (rem : List Watch) (ids : List String) :
    (∀ st f, ids.Nodup → Seller.create_stocks rem ids = some (st, f) →
      (st.map Seller.Stock.offer_id).Nodup ∧
      ∀ x ∈ st.map Seller.Stock.offer_id, x ∈ ids) ∧
    (∀ st f wh d, ids.Nodup → Market.create_stocks rem ids wh d = some (st, f) →
      (st.map Market.Stock.sku).Nodup ∧ ∀ x ∈ st.map Market.Stock.sku, x ∈ ids) ∧
    (∀ p ∈ Seller.create_prices rem ids, p.offer_id ∈ ids) ∧
    (∀ ps, Market.create_prices rem ids = some ps → ∀ p ∈ ps, p.id ∈ ids) ∧
    ((rem.map Watch.code).Nodup →
      ((Seller.create_prices rem ids).map Seller.Price.offer_id).Nodup) ∧
    ((rem.map Watch.code).Nodup →
      ∀ ps, Market.create_prices rem ids = some ps →
        (ps.map Market.Price.id).Nodup) := by
  refine ⟨?_, ?_, ?_, ?_, ?_, ?_⟩
  · intro st f hnd h
    rw [Seller.create_stocks] at h
    cases hr : stockLoop (fun c s => (⟨c, s⟩ : Seller.Stock)) rem ids with
    | none => rw [hr] at h; exact absurd h (by simp)
    | some r =>
      rw [hr] at h
      simp only [Option.map_some', Option.some.injEq, Prod.mk.injEq] at h
      obtain ⟨h1, -⟩ := h
      have hmm : Seller.Stock.offer_id ∘ (fun i => (⟨i, 0⟩ : Seller.Stock)) = id := rfl
      have hst : st.map Seller.Stock.offer_id =
          r.1.map Seller.Stock.offer_id ++ r.2 := by
        rw [← h1, List.map_append, List.map_map, hmm, List.map_id]
      constructor
      · rw [hst]
        exact stockLoop_nodup _ Seller.Stock.offer_id (fun c v => rfl)
          rem ids r.1 r.2 (by rw [hr]) hnd
      · intro x hx
        rw [hst] at hx
        rcases List.mem_append.mp hx with hx | hx
        · rcases List.mem_map.mp hx with ⟨e, he, hee⟩
          exact hee ▸ stockLoop_entries_mem _ Seller.Stock.offer_id (fun c v => rfl)
            rem ids r.1 r.2 (by rw [hr]) e he
        · exact (stockLoop_final_sublist _ rem ids r.1 r.2 (by rw [hr])).mem hx
  · intro st f wh d hnd h
    rw [Market.create_stocks] at h
    cases hr : stockLoop (Market.mkStock wh d) rem ids with
    | none => rw [hr] at h; exact absurd h (by simp)
    | some r =>
      rw [hr] at h
      simp only [Option.map_some', Option.some.injEq, Prod.mk.injEq] at h
      obtain ⟨h1, -⟩ := h
      have hmm : Market.Stock.sku ∘ (fun i => Market.mkStock wh d i 0) = id := rfl
      have hst : st.map Market.Stock.sku = r.1.map Market.Stock.sku ++ r.2 := by
        rw [← h1, List.map_append, List.map_map, hmm, List.map_id]
      constructor
      · rw [hst]
        exact stockLoop_nodup _ Market.Stock.sku (fun c v => rfl)
          rem ids r.1 r.2 (by rw [hr]) hnd
      · intro x hx
        rw [hst] at hx
        rcases List.mem_append.mp hx with hx | hx
        · rcases List.mem_map.mp hx with ⟨e, he, hee⟩
          exact hee ▸ stockLoop_entries_mem _ Market.Stock.sku (fun c v => rfl)
            rem ids r.1 r.2 (by rw [hr]) e he
        · exact (stockLoop_final_sublist _ rem ids r.1 r.2 (by rw [hr])).mem hx
  · intro p hp
    exact (seller_prices_mem rem ids p hp).1
  · intro ps h p hp
    exact (market_prices_mem rem ids ps h p hp).1
  · intro hcodes
    exact (seller_prices_codes_sublist rem ids).nodup hcodes
  · intro hcodes ps h
    exact (market_prices_codes_sublist rem ids ps h).nodup hcodes

/-- Witness for C2 (amended) on the A,B,C example with a duplicate-free
catalog and snapshot. -/
theorem offer_ids_subset_nodup_witness :
    (([(⟨"A", 5⟩ : Seller.Stock), ⟨"B", 100⟩, ⟨"C", 0⟩].map Seller.Stock.offer_id).Nodup ∧
      ∀ x ∈ [(⟨"A", 5⟩ : Seller.Stock), ⟨"B", 100⟩, ⟨"C", 0⟩].map Seller.Stock.offer_id,
        x ∈ ["A", "B", "C"]) :=
  (offer_ids_subset_nodup [⟨"A", "5", ""⟩, ⟨"B", ">10", ""⟩] ["A", "B", "C"]).1
    [⟨"A", 5⟩, ⟨"B", 100⟩, ⟨"C", 0⟩] ["C"] (by decide) (by decide)

/-- Claim C6: price reconciliation emits an update only for records whose
code is in the offer-id collection — a record with an absent code is
dropped with no effect on the rest of the output and no exception (in both
marketplaces, including the market variant whose `int()` call could raise:
it is never reached for a skipped record), and every emitted update stems
from some inventory record, so an unmatched catalog id yields no price
update and no zero-entry fallback. -/
theorem create_prices_skip_and_no_fallback :
    (∀ (ws1 : List Watch) (w : Watch) (ws2 : List Watch) (ids : List String),
      w.code ∉ ids →
        Seller.create_prices (ws1 ++ w :: ws2) ids = Seller.create_prices (ws1 ++ ws2) ids ∧
        Market.create_prices (ws1 ++ w :: ws2) ids = Market.create_prices (ws1 ++ ws2) ids) ∧
    (∀ (rem : List Watch) (ids : List String) (p : Seller.Price),
      p ∈ Seller.create_prices rem ids → ∃ w ∈ rem, w.code = p.offer_id) ∧
    (∀ (rem : List Watch) (ids : List String) (ps : List Market.Price),
      Market.create_prices rem ids = some ps → ∀ p ∈ ps, ∃ w ∈ rem, w.code = p.id) := by
  refine ⟨?_, ?_, ?_⟩
  · intro ws1 w ws2 ids hnc
    exact ⟨seller_prices_skip ws1 w ws2 ids hnc, market_prices_skip ws1 w ws2 ids hnc⟩
  · intro rem ids p hp
    exact (seller_prices_mem rem ids p hp).2
  · intro rem ids ps h p hp
    exact (market_prices_mem rem ids ps h p hp).2

/-- Witness for C6: dropping the unmatched record "X" leaves the price
output unchanged. -/
theorem create_prices_skip_and_no_fallback_witness :
    Seller.create_prices [⟨"X", "1", "5"⟩, ⟨"A", "1", "5"⟩] ["A"] =
      Seller.create_prices [⟨"A", "1", "5"⟩] ["A"] :=
  (create_prices_skip_and_no_fallback.1 [] ⟨"X", "1", "5"⟩ [⟨"A", "1", "5"⟩] ["A"]
    (by decide)).1

/-- Claim C7: the stock output is the matched updates, in snapshot order,
followed by the zero-stock updates for the leftover catalog ids, in
original catalog order (the leftover list is a sublist of the catalog, and
the matched ids a sublist of the snapshot's code sequence). -/
theorem stocks_output_order (rem : List Watch) (ids : List String) :
    (∀ st f, Seller.create_stocks rem ids = some (st, f) →
      ∃ ms, st = ms ++ f.map (fun i => (⟨i, 0⟩ : Seller.Stock)) ∧
        (ms.map Seller.Stock.offer_id).Sublist (rem.map Watch.code) ∧
        f.Sublist ids) ∧
    (∀ st f wh d, Market.create_stocks rem ids wh d = some (st, f) →
      ∃ ms, st = ms ++ f.map (fun i => Market.mkStock wh d i 0) ∧
        (ms.map Market.Stock.sku).Sublist (rem.map Watch.code) ∧
        f.Sublist ids) := by
  constructor
  · intro st f h
    rw [Seller.create_stocks] at h
    cases hr : stockLoop (fun c s => (⟨c, s⟩ : Seller.Stock)) rem ids with
    | none => rw [hr] at h; exact absurd h (by simp)
    | some r =>
      rw [hr] at h
      simp only [Option.map_some', Option.some.injEq, Prod.mk.injEq] at h
      obtain ⟨h1, h2⟩ := h
      refine ⟨r.1, by rw [← h1, h2], ?_, h2 ▸ stockLoop_final_sublist _ rem ids r.1 r.2 (by rw [hr])⟩
      exact stockLoop_codes_sublist _ Seller.Stock.offer_id (fun c v => rfl)
        rem ids r.1 r.2 (by rw [hr])
  · intro st f wh d h
    rw [Market.create_stocks] at h
    cases hr : stockLoop (Market.mkStock wh d) rem ids with
    | none => rw [hr] at h; exact absurd h (by simp)
    | some r =>
      rw [hr] at h
      simp only [Option.map_some', Option.some.injEq, Prod.mk.injEq] at h
      obtain ⟨h1, h2⟩ := h
      refine ⟨r.1, by rw [← h1, h2], ?_, h2 ▸ stockLoop_final_sublist _ rem ids r.1 r.2 (by rw [hr])⟩
      exact stockLoop_codes_sublist _ Market.Stock.sku (fun c v => rfl)
        rem ids r.1 r.2 (by rw [hr])

/-- Witness for C7 on a snapshot whose order differs from the catalog's. -/
theorem stocks_output_order_witness :
    ∃ ms, [(⟨"B", 2⟩ : Seller.Stock), ⟨"A", 3⟩, ⟨"C", 0⟩] =
        ms ++ ["C"].map (fun i => (⟨i, 0⟩ : Seller.Stock)) ∧
      (ms.map Seller.Stock.offer_id).Sublist
        ([⟨"B", "2", ""⟩, ⟨"A", "3", ""⟩].map Watch.code) ∧
      (["C"] : List String).Sublist ["A", "B", "C"] :=
  (stocks_output_order [⟨"B", "2", ""⟩, ⟨"A", "3", ""⟩] ["A", "B", "C"]).1
    [⟨"B", 2⟩, ⟨"A", 3⟩, ⟨"C", 0⟩] ["C"] (by decide)

/-- Claim C8: a matched record whose quantity token is neither `">10"` nor
`"1"` nor parseable as an integer makes the whole `create_stocks` call fail
hard (the `int()` call raises `ValueError`; modelled: the result is `none`,
not a list with a defaulted value), in both marketplaces. -/
theorem malformed_quantity_hard_error
    (ws1 : List Watch) (w : Watch) (ws2 : List Watch) (ids : List String)
    (st : List Seller.Stock) (f : List String)
    (hpre : Seller.create_stocks ws1 ids = some (st, f))
    (hmem : w.code ∈ f)
    (h10 : w.quantity ≠ ">10") (h1 : w.quantity ≠ "1")
    (hparse : parsePyInt w.quantity = none) :
    Seller.create_stocks (ws1 ++ w :: ws2) ids = none ∧
    ∀ wh d, Market.create_stocks (ws1 ++ w :: ws2) ids wh d = none := by
  have hb : bucketQuantity w.quantity = none := by
    rw [bucketQuantity, if_neg h10, if_neg h1]
    exact hparse
  rw [Seller.create_stocks] at hpre
  cases hr : stockLoop (fun c s => (⟨c, s⟩ : Seller.Stock)) ws1 ids with
  | none => rw [hr] at hpre; exact absurd hpre (by simp)
  | some r =>
    rw [hr] at hpre
    simp only [Option.map_some', Option.some.injEq, Prod.mk.injEq] at hpre
    obtain ⟨-, h2⟩ := hpre
    have hmem' : w.code ∈ r.2 := h2.symm ▸ hmem
    have hw : stockLoop (fun c s => (⟨c, s⟩ : Seller.Stock)) (w :: ws2) r.2 = none := by
      rw [stockLoop, if_pos hmem', hb]
    constructor
    · rw [Seller.create_stocks, stockLoop_append, hr]
      simp only [Option.some_bind]
      rw [hw]
      rfl
    · intro wh d
      have hrM : stockLoop (Market.mkStock wh d) ws1 ids =
          some (r.1.map (fun e => Market.mkStock wh d e.offer_id e.stock), r.2) := by
        have he : stockLoop (Market.mkStock wh d) ws1 ids =
            (stockLoop (fun c s => (⟨c, s⟩ : Seller.Stock)) ws1 ids).map
              (fun p => (p.1.map (fun e => Market.mkStock wh d e.offer_id e.stock), p.2)) :=
          stockLoop_map (fun c s => (⟨c, s⟩ : Seller.Stock))
            (fun e => Market.mkStock wh d e.offer_id e.stock) ws1 ids
        rw [he, hr]
        rfl
      have hwM : stockLoop (Market.mkStock wh d) (w :: ws2) r.2 = none := by
        rw [stockLoop, if_pos hmem', hb]
      rw [Market.create_stocks, stockLoop_append, hrM]
      simp only [Option.some_bind]
      rw [hwM]
      rfl

/-- Witness for C8: the quantity token "abc" on a matched record makes both
stock reconciliations fail. -/
theorem malformed_quantity_hard_error_witness :
    Seller.create_stocks [⟨"A", "abc", ""⟩] ["A"] = none ∧
    ∀ wh d, Market.create_stocks [⟨"A", "abc", ""⟩] ["A"] wh d = none :=
  malformed_quantity_hard_error [] ⟨"A", "abc", ""⟩ [] ["A"] [⟨"A", 0⟩] ["A"]
    (by decide) (by decide) (by decide) (by decide) (by decide)

/-- Claim C9 counterexample: `create_stocks` in `src/market.py` embeds the
wall-clock reading (`datetime.utcnow()`, the `updatedAt` field) in every
emitted record, so two runs on identical inputs whose clock readings differ
produce different outputs — the claimed run-to-run output identity fails. -/
theorem market_stocks_clock_dependent :
    Market.create_stocks [⟨"A", "5", ""⟩] ["A"] "WH" "2023-01-01T00:00:00Z" ≠
      Market.create_stocks [⟨"A", "5", ""⟩] ["A"] "WH" "2023-01-01T00:00:01Z" := by
  decide

/-- Projection of a market stock record that forgets the `updatedAt`
timestamp but keeps sku, warehouse, count and type. -/
def stripUpdatedAt (m : Market.Stock) : String × String × List (Int × String) :=
  (m.sku, m.warehouseId, m.items.map (fun it => (it.count, it.type)))

/-- Claim C9 amended: both reconciliations are pure functions of their
arguments (the seller functions and market `create_prices` take no clock
input at all), and market `create_stocks` is deterministic up to the
`updatedAt` timestamp: for any two clock readings the outputs agree on
skus, warehouse ids, counts, types, ordering and the final offer-id
state. -/
theorem reconciliation_deterministic_mod_timestamp
    (rem : List Watch) (ids : List String) (wh d1 d2 : String) :
    (Market.create_stocks rem ids wh d1).map
        (fun r => (r.1.map stripUpdatedAt, r.2)) =
      (Market.create_stocks rem ids wh d2).map
        (fun r => (r.1.map stripUpdatedAt, r.2)) := by
  have key : ∀ dd : String, stockLoop (Market.mkStock wh dd) rem ids =
      (stockLoop (fun c v => ((c, v) : String × Int)) rem ids).map
        (fun r => (r.1.map (fun p : String × Int => Market.mkStock wh dd p.1 p.2), r.2)) :=
    fun dd => stockLoop_map (fun c v => ((c, v) : String × Int))
      (fun p => Market.mkStock wh dd p.1 p.2) rem ids
  rw [Market.create_stocks, Market.create_stocks, key d1, key d2]
  cases stockLoop (fun c v => ((c, v) : String × Int)) rem ids with
  | none => rfl
  | some r =>
    simp only [Option.map_some', List.map_append, List.map_map]
    rfl

/-- Claim C10 (code bug): `create_stocks` removes every matched code from
the caller's `offer_ids` list (`offer_ids.remove`), so the input is mutated:
after the call in `seller.main` the list `["123"]` has become `[]`, and the
subsequent `create_prices` over that same list emits nothing, although over
the originally fetched catalog it would emit the 5990 price update. -/
theorem create_stocks_mutates_offer_ids :
    Seller.create_stocks [⟨"123", "10", "5'990.00 руб."⟩] ["123"] =
      some ([⟨"123", 10⟩], []) ∧
    ([] : List String) ≠ ["123"] ∧
    Seller.create_prices [⟨"123", "10", "5'990.00 руб."⟩] [] = [] ∧
    Seller.create_prices [⟨"123", "10", "5'990.00 руб."⟩] ["123"] =
      [⟨"UNKNOWN", "RUB", "123", "0", "5990"⟩] ∧
    (Market.create_stocks [⟨"123", "10", "5'990.00 руб."⟩] ["123"] "WH" "D").map
        Prod.snd = some [] := by
  decide
